import Mathlib

/-!
Shallow embedding of the slide-summarizer application (TypeScript sources
`src/utils/openaiService.ts`, `src/utils/csvExport.ts`,
`src/components/ResultsList.tsx`) together with theorems settling the
specification claims.

Modelling conventions:
* JavaScript strings are modelled as Lean `String` / `List Char`.
* Asynchronous, fallible calls (file reads, the PDF library, the LLM HTTP
  endpoint) are modelled as `Except String _` values supplied by the
  environment; `throw` becomes `.error`, and a `catch` block becomes a
  `match` on the `Except`.
* Network requests are counted explicitly so that "no network call is made"
  is expressible as a count of zero.
* `Math.round` over JS doubles is modelled exactly over `ℚ`
  (`⌊q + 1/2⌋`, which agrees with `Math.round` on non-negative values).
-/

deriving instance DecidableEq for Except

/-- Character class of the JavaScript `\s` regex class and of `String.trim`
(space, tab, newline, carriage return, vertical tab, form feed and the
no-break space U+00A0; further exotic Unicode spaces are irrelevant to the
claims and omitted). -/
def isJsSpace (c : Char) : Bool :=
  c == ' ' || c == '\t' || c == '\n' || c == '\r' || c.val == 11 || c.val == 12 || c.val == 160

/-- JavaScript `String.prototype.trim`: drop leading and trailing whitespace. -/
def jsTrimList (cs : List Char) : List Char :=
  ((cs.dropWhile isJsSpace).reverse.dropWhile isJsSpace).reverse

/-- Substring test underlying JavaScript `String.prototype.includes`. -/
def containsSub (pat : List Char) : List Char → Bool
  | [] => decide (pat = [])
  | c :: rest => List.isPrefixOf pat (c :: rest) || containsSub pat rest

/-- JavaScript `s.includes(pat)`. -/
def jsIncludes (s pat : String) : Bool := containsSub pat.toList s.toList

/-- JavaScript `s.startsWith(pat)` (the `String.startsWith` of the standard
library, expressed over character lists). -/
def jsStartsWith (s pat : String) : Bool := List.isPrefixOf pat.toList s.toList

/-- JavaScript `v || d` for an optional string value `v`: the default is used
when the value is absent (`undefined`) or the empty string (falsy). -/
def jsOrString : Option String → String → String
  | none, d => d
  | some s, d => if s = "" then d else s

/-- Case-insensitive match of a literal pattern at the head of the input,
returning the remaining input on success (the `i` flag of the source
regexes; `Char.toLower` covers the ASCII letters occurring in them). -/
def litMatch : List Char → List Char → Option (List Char)
  | [], cs => some cs
  | _ :: _, [] => none
  | p :: ps, c :: cs => if p.toLower = c.toLower then litMatch ps cs else none

/-- Continuation of the source regexes `X:?\s*(.*?)(?:\n|$)` after the literal
`X` has matched: an optional `:`, then greedy `\s*` (which never needs to
backtrack because the lazy group followed by `\n`-or-end always succeeds),
then the capture group, which extends to the first newline or the end. -/
def afterLit (rest : List Char) : List Char :=
  let r1 := match rest with
    | ':' :: t => t
    | t => t
  (r1.dropWhile isJsSpace).takeWhile (fun c => c ≠ '\n')

/-- Leftmost application of a regex of the shape `/X:?\s*(.*?)(?:\n|$)/i`:
scan for the first case-insensitive occurrence of the literal `X` and return
the capture group; `none` when the literal never occurs (the regex matches
exactly at the leftmost literal occurrence, since its tail always succeeds). -/
def lineExtract (lit : List Char) : List Char → Option (List Char)
  | [] => none
  | c :: cs =>
    match litMatch lit (c :: cs) with
    | some rest => some (afterLit rest)
    | none => lineExtract lit cs

namespace OpenAIService

/-- Allowed-term lists for the seven medical-affairs categories
(`request.taxonomyTerms.medical_affairs_taxonomy` in `openaiService.ts`). -/
structure TaxonomySet where
  ContentType : List String
  ClinicalTrialRelevance : List String
  DiseaseAndTherapeuticArea : List String
  IntendedAudience : List String
  KeyScientificMessaging : List String
  DistributionAndAccessControl : List String
  ComplianceAndRegulatoryConsiderations : List String
deriving DecidableEq

/-- The `taxonomyTerms` payload of `OpenAIAnalysisRequest`. -/
structure TaxonomyTerms where
  content_taxonomy : List String
  medical_affairs_taxonomy : TaxonomySet
deriving DecidableEq

/-- `OpenAIAnalysisRequest` from `openaiService.ts` (the prompt text built
from `content` is irrelevant to the claims; the validation logic reads only
`taxonomyTerms`). -/
structure OpenAIAnalysisRequest where
  content : String
  taxonomyTerms : Option TaxonomyTerms
deriving DecidableEq

/-- The seven taxonomy fields of `OpenAIAnalysisResponse.medical_affairs_taxonomy`. -/
structure MedTax where
  ContentType : List String
  ClinicalTrialRelevance : List String
  DiseaseAndTherapeuticArea : List String
  IntendedAudience : List String
  KeyScientificMessaging : List String
  DistributionAndAccessControl : List String
  ComplianceAndRegulatoryConsiderations : List String
deriving DecidableEq

/-- `OpenAIAnalysisResponse` from `openaiService.ts`. -/
structure OpenAIAnalysisResponse where
  title : String
  summary : String
  content_taxonomy : List String
  medical_affairs_taxonomy : MedTax
deriving DecidableEq

/-- The optional medical-affairs object of a successfully `JSON.parse`d
assistant message (`parsedResult.medical_affairs_taxonomy?.X`). -/
structure ParsedMedTax where
  ContentType : Option (List String)
  ClinicalTrialRelevance : Option (List String)
  DiseaseAndTherapeuticArea : Option (List String)
  IntendedAudience : Option (List String)
  KeyScientificMessaging : Option (List String)
  DistributionAndAccessControl : Option (List String)
  ComplianceAndRegulatoryConsiderations : Option (List String)
deriving DecidableEq

/-- A successfully `JSON.parse`d assistant message, with every expected key
optional (`undefined` becomes `none`). -/
structure ParsedResult where
  title : Option String
  summary : Option String
  content_taxonomy : Option (List String)
  medical_affairs_taxonomy : Option ParsedMedTax
deriving DecidableEq

/-- Marker for the JavaScript value `undefined` that `availableTerms[0]`
produces when the allowed-term list is empty (no claim depends on it; all
claim instances use non-empty allowed-term lists). -/
def jsUndefined : String := "undefined"

/-- `ensureValidTaxonomyTerms` from `openaiService.ts` (lines 186-192):
replace a missing, empty, or `"Unable to determine"`-containing term array by
the one-element array holding the first allowed term; otherwise return the
terms unchanged. -/
def ensureValidTaxonomyTerms (terms : Option (List String)) (availableTerms : List String) :
    List String :=
  match terms with
  | none => [availableTerms.headD jsUndefined]
  | some ts =>
    if ts = [] ∨ ts.contains "Unable to determine" then [availableTerms.headD jsUndefined]
    else ts

/-- The `validatedResponse` object built in `analyzeWithOpenAI` after a
successful `JSON.parse` (lines 194-232 of `openaiService.ts`). -/
def validatedResponse (p : ParsedResult) (req : OpenAIAnalysisRequest) : OpenAIAnalysisResponse where
  title := jsOrString p.title "Title not provided"
  summary := jsOrString p.summary "Summary not provided"
  content_taxonomy :=
    ensureValidTaxonomyTerms p.content_taxonomy
      ((req.taxonomyTerms.map (·.content_taxonomy)).getD [])
  medical_affairs_taxonomy :=
    { ContentType :=
        ensureValidTaxonomyTerms (p.medical_affairs_taxonomy.bind (·.ContentType))
          ((req.taxonomyTerms.map (·.medical_affairs_taxonomy.ContentType)).getD [])
      ClinicalTrialRelevance :=
        ensureValidTaxonomyTerms (p.medical_affairs_taxonomy.bind (·.ClinicalTrialRelevance))
          ((req.taxonomyTerms.map (·.medical_affairs_taxonomy.ClinicalTrialRelevance)).getD [])
      DiseaseAndTherapeuticArea :=
        ensureValidTaxonomyTerms (p.medical_affairs_taxonomy.bind (·.DiseaseAndTherapeuticArea))
          ((req.taxonomyTerms.map (·.medical_affairs_taxonomy.DiseaseAndTherapeuticArea)).getD [])
      IntendedAudience :=
        ensureValidTaxonomyTerms (p.medical_affairs_taxonomy.bind (·.IntendedAudience))
          ((req.taxonomyTerms.map (·.medical_affairs_taxonomy.IntendedAudience)).getD [])
      KeyScientificMessaging :=
        ensureValidTaxonomyTerms (p.medical_affairs_taxonomy.bind (·.KeyScientificMessaging))
          ((req.taxonomyTerms.map (·.medical_affairs_taxonomy.KeyScientificMessaging)).getD [])
      DistributionAndAccessControl :=
        ensureValidTaxonomyTerms (p.medical_affairs_taxonomy.bind (·.DistributionAndAccessControl))
          ((req.taxonomyTerms.map (·.medical_affairs_taxonomy.DistributionAndAccessControl)).getD [])
      ComplianceAndRegulatoryConsiderations :=
        ensureValidTaxonomyTerms
          (p.medical_affairs_taxonomy.bind (·.ComplianceAndRegulatoryConsiderations))
          ((req.taxonomyTerms.map
            (·.medical_affairs_taxonomy.ComplianceAndRegulatoryConsiderations)).getD []) }

/-- The fallback record built in the `catch (parseError)` branch of
`analyzeWithOpenAI` (lines 235-257 of `openaiService.ts`): line-oriented
regex salvage of title, summary and content taxonomy from the raw assistant
text, with sentinel defaults (the `|| default` also fires on an empty
capture, since the empty string is falsy). -/
def fallbackResponse (raw : String) : OpenAIAnalysisResponse :=
  let cs := raw.toList
  { title :=
      jsOrString ((lineExtract "title".toList cs).map String.mk) "Unable to extract title"
    summary :=
      jsOrString ((lineExtract "summary".toList cs).map String.mk) "Unable to extract summary"
    content_taxonomy :=
      [jsOrString ((lineExtract "content taxonomy".toList cs).map String.mk)
        "Unable to determine taxonomy"]
    medical_affairs_taxonomy :=
      { ContentType := ["Unable to determine"]
        ClinicalTrialRelevance := ["Unable to determine"]
        DiseaseAndTherapeuticArea := ["Unable to determine"]
        IntendedAudience := ["Unable to determine"]
        KeyScientificMessaging := ["Unable to determine"]
        DistributionAndAccessControl := ["Unable to determine"]
        ComplianceAndRegulatoryConsiderations := ["Unable to determine"] } }

/-- Outcome of the chat-completion HTTP exchange and the subsequent
`JSON.parse` of `choices[0].message.content`, supplied as an oracle (the
network and the JSON parser are external to this repository):
either a non-2xx HTTP failure, a parsed JSON object, or a parse failure
carrying the raw assistant text. -/
inductive LlmOutcome where
  | httpError (msg : String)
  | parsed (p : ParsedResult)
  | unparsable (raw : String)
deriving DecidableEq

/-- `analyzeWithOpenAI` from `openaiService.ts` (lines 94-263), returning the
result together with the number of network requests issued.  The credential
check precedes the `try` block, so its error propagates unwrapped and no
request is made. -/
def analyzeWithOpenAI (apiKey : String) (req : OpenAIAnalysisRequest) (outcome : LlmOutcome) :
    Except String OpenAIAnalysisResponse × Nat :=
  if ¬ jsStartsWith apiKey "sk-" then
    (.error "Invalid API key format. OpenAI API keys should start with \"sk-\"", 0)
  else
    match outcome with
    | .httpError msg =>
      (.error ("Failed to analyze content with OpenAI: OpenAI API error: " ++ msg), 1)
    | .parsed p => (.ok (validatedResponse p req), 1)
    | .unparsable raw => (.ok (fallbackResponse raw), 1)

/-- One entry of the provider's model catalog (`data.data`); only `id` is
read by the source. -/
structure CatalogModel where
  id : String
deriving DecidableEq

/-- `OpenAIModel` from `openaiService.ts`. -/
structure OpenAIModel where
  id : String
  name : String
deriving DecidableEq

/-- JavaScript `s.replace(pat, repl)` with a plain-string pattern: replace
the first occurrence only. -/
def replaceFirstL (pat repl : List Char) : List Char → List Char
  | [] => []
  | c :: rest =>
    if List.isPrefixOf pat (c :: rest) then repl ++ (c :: rest).drop pat.length
    else c :: replaceFirstL pat repl rest

/-- Word characters of the JavaScript `\w` regex class. -/
def isWordChar (c : Char) : Bool := c.isAlphanum || c = '_'

/-- JavaScript `s.replace(/\b\w/g, toUpper)`: uppercase every word character
at a word boundary (start of string or preceded by a non-word character). -/
def capWordBounds : Bool → List Char → List Char
  | _, [] => []
  | prevWord, c :: rest =>
    (if isWordChar c && !prevWord then c.toUpper else c) :: capWordBounds (isWordChar c) rest

/-- The display-name mapping applied to fetched model ids in
`getAvailableModels`: replace the first `gpt-` by `GPT `, replace every `-`
by a space, then uppercase word characters at word boundaries. -/
def modelDisplayName (id : String) : String :=
  String.mk (capWordBounds false
    ((replaceFirstL "gpt-".toList "GPT ".toList id.toList).map
      (fun c => if c = '-' then ' ' else c)))

/-- The filter applied to the fetched catalog: id contains `gpt` and contains
neither `instruct` nor `vision`. -/
def keepsModel (m : CatalogModel) : Bool :=
  jsIncludes m.id "gpt" && !jsIncludes m.id "instruct" && !jsIncludes m.id "vision"

/-- The hardcoded preferred models prepended in `getAvailableModels`
(lines 71-76 of `openaiService.ts`). -/
def specificModels : List OpenAIModel :=
  [⟨"gpt-4o", "GPT-4o"⟩, ⟨"gpt-4-turbo", "GPT-4 Turbo"⟩, ⟨"gpt-4", "GPT-4"⟩,
   ⟨"gpt-3.5-turbo", "GPT-3.5 Turbo"⟩]

/-- The dedup-append loop of `getAvailableModels` (lines 79-85): push each
fetched model whose id is not already present. -/
def addUnique (acc : List OpenAIModel) : List OpenAIModel → List OpenAIModel
  | [] => acc
  | m :: rest =>
    if acc.any (fun x => x.id = m.id) then addUnique acc rest
    else addUnique (acc ++ [m]) rest

/-- The fetched catalog after filtering, name-mapping and sorting by
`localeCompare` on ids (`gptModels` in the source).  `localeCompare` is
locale-dependent, so the comparator is a parameter. -/
def gptModelsOf (cmp : String → String → Ordering) (data : List CatalogModel) :
    List OpenAIModel :=
  ((data.filter keepsModel).map (fun m => ⟨m.id, modelDisplayName m.id⟩)).mergeSort
    (fun a b => cmp a.id b.id ≠ Ordering.gt)

/-- The pure post-fetch processing of `getAvailableModels` (lines 56-87):
hardcoded models first, then the sorted fetched models deduplicated by id. -/
def modelsFromCatalog (cmp : String → String → Ordering) (data : List CatalogModel) :
    List OpenAIModel :=
  addUnique specificModels (gptModelsOf cmp data)

/-- `getAvailableModels` from `openaiService.ts` (lines 37-92), returning the
result together with the number of network requests issued.  The fetch of
`/v1/models` is modelled as an oracle giving either an HTTP failure message
or the catalog's `data` array. -/
def getAvailableModels (cmp : String → String → Ordering) (apiKey : String)
    (outcome : Except String (List CatalogModel)) :
    Except String (List OpenAIModel) × Nat :=
  if ¬ jsStartsWith apiKey "sk-" then
    (.error "Invalid API key format. OpenAI API keys should start with \"sk-\"", 0)
  else
    match outcome with
    | .error msg => (.error ("Failed to fetch OpenAI models: Failed to fetch models: " ++ msg), 1)
    | .ok data => (.ok (modelsFromCatalog cmp data), 1)

/-- Modelled from the spec: the normalization the specification claims the
validator applies to each returned term, "stripping non-breaking-space
characters and trimming whitespace".  The source contains no such
normalization; this definition exists only to state claim C1. -/
def specNormalizeTerm (s : String) : String :=
  String.mk (jsTrimList (s.toList.filter (fun c => c.val ≠ 160)))

end OpenAIService

namespace FileProcessing

/-- One submitted `File`, together with the deterministic outcomes of the
external operations performed on it: `readRes` for `readFileAsArrayBuffer`,
`pdfCount` for the PDF library's page count and `pdfText` for its per-page
text extraction (each read of the same file gives the same outcome). -/
structure FileModel where
  name : String
  size : Nat
  readRes : Except String Unit
  pdfCount : Except String Nat
  pdfText : Nat → Except String String

/-- JavaScript `name.toLowerCase()` (ASCII case folding suffices for the
extension literals compared against). -/
def jsToLowerList (s : String) : List Char := s.toList.map Char.toLower

/-- JavaScript `s.toLowerCase().endsWith(suffix)` as used in
`getPageCount` and `extractPageContent`. -/
def lowerEndsWith (s suffix : String) : Bool :=
  List.isSuffixOf suffix.toList (jsToLowerList s)

/-- JavaScript `Math.round` on a non-negative value: floor of the value plus
one half. -/
def jsRound (q : ℚ) : ℤ := ⌊q + 1 / 2⌋

/-- The PPTX page-count heuristic of `getPageCount` (lines 181-185 of
`csvExport.ts`): `Math.max(1, Math.round(fileSizeMB * 10))` with
`fileSizeMB = size / (1024 * 1024)`. -/
def pptxPageCount (size : Nat) : Nat :=
  max 1 (jsRound ((size : ℚ) / (1024 * 1024) * 10)).toNat

/-- The static placeholder text returned for every PPTX page by
`extractPageContent` (line 198 of `csvExport.ts`). -/
def placeholderText (pageNum : Nat) (name : String) : String :=
  "[This is placeholder content for slide " ++ toString pageNum ++ " of PowerPoint file "
    ++ name
    ++ ". In a production environment, we would extract real text content from the PPTX file.]"

/-- `getPageCount` from `csvExport.ts` (lines 178-189): PDF files defer to
the PDF library (which reads the file bytes first), PPTX files use the
size-based heuristic without reading the file, everything else throws
`Unsupported file type`. -/
def getPageCount (f : FileModel) : Except String Nat :=
  if lowerEndsWith f.name ".pdf" then
    match f.readRes with
    | .error e => .error e
    | .ok _ => f.pdfCount
  else if lowerEndsWith f.name ".pptx" then .ok (pptxPageCount f.size)
  else .error "Unsupported file type"

/-- `extractPageContent` from `csvExport.ts` (lines 192-202): PDF pages come
from the PDF library (after reading the file bytes), PPTX pages are the
static placeholder, everything else throws `Unsupported file type`. -/
def extractPageContent (f : FileModel) (pageNum : Nat) : Except String String :=
  if lowerEndsWith f.name ".pdf" then
    match f.readRes with
    | .error e => .error e
    | .ok _ => f.pdfText pageNum
  else if lowerEndsWith f.name ".pptx" then .ok (placeholderText pageNum f.name)
  else .error "Unsupported file type"

/-- The fields of an `analyzeWithOpenAI` result that `processFiles` copies
into a record (`title`, `summary`, `taxonomy`, `mslUsage`). -/
structure Analysis where
  title : String
  summary : String
  taxonomy : String
  mslUsage : String
deriving DecidableEq

/-- The environment of one `processFiles` batch: the outcome of the awaited
`analyzeWithOpenAI` call as a deterministic function of the page content
(`.error` models a thrown exception, caught by the per-page handler). -/
structure Env where
  llm : String → Except String Analysis

/-- The record shape pushed by `processFiles` onto `results`. -/
structure PRecord where
  fileIndex : Nat
  fileName : String
  pageNumber : Nat
  title : String
  summary : String
  taxonomy : String
  mslUsage : String
deriving DecidableEq

/-- Observable effect of a span of the `processFiles` loop: the records
appended, the progress values reported, the number of LLM calls made, and
the final `processedPageCount`. -/
structure Step where
  records : List PRecord
  events : List ℚ
  llmCalls : Nat
  processed : Nat
deriving DecidableEq

/-- The progress value reported after a page attempt:
`processedPageCount / totalPageCount * 100`. -/
def progress (k total : Nat) : ℚ := (k : ℚ) / (total : ℚ) * 100

/-- The error record pushed by the per-page `catch` handler
(lines 126-134 of `csvExport.ts`). -/
def pageErrorRecord (i : Nat) (name : String) (p : Nat) (msg : String) : PRecord :=
  ⟨i, name, p, "Error Processing Page", "An error occurred: " ++ msg, "Error",
    "Unable to process"⟩

/-- The error record pushed by the per-file `catch` handler
(lines 150-158 of `csvExport.ts`). -/
def fileErrorRecord (i : Nat) (name : String) (msg : String) : PRecord :=
  ⟨i, name, 1, "Error Processing File", "Could not process this file: " ++ msg, "Error",
    "Unable to process"⟩

/-- The record pushed for a successfully analyzed page
(lines 106-114 of `csvExport.ts`). -/
def okRecord (i : Nat) (name : String) (p : Nat) (a : Analysis) : PRecord :=
  ⟨i, name, p, a.title, a.summary, a.taxonomy, a.mslUsage⟩

/-- One iteration of the inner page loop of `processFiles` (lines 85-142):
extract the page text; skip it when its trimmed length is below 20 (progress
still advances); otherwise call the LLM and push either a result record or a
page-error record.  Every branch increments `processedPageCount` by one and
reports exactly one progress value. -/
def processPage (env : Env) (f : FileModel) (i p total processed : Nat) : Step :=
  match extractPageContent f p with
  | .error e =>
    ⟨[pageErrorRecord i f.name p e], [progress (processed + 1) total], 0, processed + 1⟩
  | .ok text =>
    if (jsTrimList text.toList).length < 20 then
      ⟨[], [progress (processed + 1) total], 0, processed + 1⟩
    else
      match env.llm text with
      | .ok a =>
        ⟨[okRecord i f.name p a], [progress (processed + 1) total], 1, processed + 1⟩
      | .error e =>
        ⟨[pageErrorRecord i f.name p e], [progress (processed + 1) total], 1, processed + 1⟩

/-- The inner page loop of `processFiles` over a list of page numbers,
threading `processedPageCount`. -/
def processPages (env : Env) (f : FileModel) (i total : Nat) :
    List Nat → Nat → Step
  | [], processed => ⟨[], [], 0, processed⟩
  | p :: ps, processed =>
    let s1 := processPage env f i p total processed
    let s2 := processPages env f i total ps s1.processed
    ⟨s1.records ++ s2.records, s1.events ++ s2.events, s1.llmCalls + s2.llmCalls, s2.processed⟩

/-- One iteration of the outer file loop of `processFiles` (lines 76-162):
read the file bytes, get the page count, and run the page loop over pages
`1..totalPages`; a failure of the read or of the page count is caught by the
per-file handler, which pushes one file-error record and does not touch
`processedPageCount`. -/
def processFile (env : Env) (f : FileModel) (i total processed : Nat) : Step :=
  match f.readRes with
  | .error e => ⟨[fileErrorRecord i f.name e], [], 0, processed⟩
  | .ok _ =>
    match getPageCount f with
    | .error e => ⟨[fileErrorRecord i f.name e], [], 0, processed⟩
    | .ok n => processPages env f i total (List.range' 1 n) processed

/-- The outer file loop of `processFiles`, starting at file index `i` with
the given `processedPageCount`. -/
def processFilesFrom (env : Env) (total : Nat) :
    List FileModel → Nat → Nat → Step
  | [], _, processed => ⟨[], [], 0, processed⟩
  | f :: fs, i, processed =>
    let s1 := processFile env f i total processed
    let s2 := processFilesFrom env total fs (i + 1) s1.processed
    ⟨s1.records ++ s2.records, s1.events ++ s2.events, s1.llmCalls + s2.llmCalls, s2.processed⟩

/-- Contribution of a single file to `totalPageCount` in the counting phase
(lines 65-73): its page count, or zero when counting fails. -/
def countOf (f : FileModel) : Nat :=
  match getPageCount f with
  | .ok n => n
  | .error _ => 0

/-- `totalPageCount` after the counting phase of `processFiles`. -/
def countTotal (files : List FileModel) : Nat := (files.map countOf).sum

/-- Full observable behaviour of one `processFiles` batch. -/
structure Trace where
  results : List PRecord
  events : List ℚ
  llmCalls : Nat
  processed : Nat
  total : Nat
deriving DecidableEq

/-- `processFiles` from `csvExport.ts` (lines 53-165): count pages across all
files, then process each file in order. -/
def processFiles (env : Env) (files : List FileModel) : Trace :=
  let total := countTotal files
  let s := processFilesFrom env total files 0 0
  ⟨s.records, s.events, s.llmCalls, s.processed, total⟩

/-- A file suffers no file-level failure after a successful page count: if
its page count succeeds, reading its bytes also succeeds.  (For PDF files
this is automatic, because counting pages reads the bytes; a PPTX file whose
bytes cannot be read violates it, since its count is purely size-based.) -/
def goodFile (f : FileModel) : Prop :=
  ∀ n, getPageCount f = .ok n → f.readRes = .ok ()

end FileProcessing

/-- A concrete, locale-independent string comparator used to instantiate the
`localeCompare` parameter in counterexamples: lexicographic comparison of
the code points. -/
def codePointCmp (a b : String) : Ordering :=
  go a.toList b.toList
where
  go : List Char → List Char → Ordering
    | [], [] => .eq
    | [], _ :: _ => .lt
    | _ :: _, [] => .gt
    | x :: xs, y :: ys =>
      match compare x.val.toNat y.val.toNat with
      | .eq => go xs ys
      | o => o

namespace Fixtures

/-- A PPTX file of exactly 1 MiB whose bytes cannot be read: its page count
succeeds (size heuristic, no read), but processing it fails at the
`readFileAsArrayBuffer` step. -/
def pptxBroken : FileProcessing.FileModel :=
  ⟨"deck.pptx", 1048576, .error "Read failed", .error "not a pdf", fun _ => .error "not a pdf"⟩

/-- A one-page PDF whose single page holds only two characters of text. -/
def shortPdf : FileProcessing.FileModel :=
  ⟨"short.pdf", 100, .ok (), .ok 1, fun _ => .ok "hi"⟩

/-- A one-page PDF with a page of substantial text. -/
def longPdf : FileProcessing.FileModel :=
  ⟨"long.pdf", 4096, .ok (), .ok 1,
    fun _ => .ok "This page describes efficacy and safety outcomes in detail."⟩

/-- A readable file whose extension is neither `.pdf` nor `.pptx`. -/
def txtFile : FileProcessing.FileModel :=
  ⟨"notes.txt", 5, .ok (), .error "never parsed", fun _ => .error "never parsed"⟩

/-- An environment whose LLM call always throws. -/
def stubEnv : FileProcessing.Env := ⟨fun _ => .error "network unavailable"⟩

/-- An environment whose LLM call always succeeds with a fixed analysis. -/
def okEnv : FileProcessing.Env := ⟨fun _ => .ok ⟨"T", "S", "Dosing", "Share freely"⟩⟩

/-- A parsed assistant message whose content-taxonomy array holds a term
outside the allowed set. -/
def bogusParsed : OpenAIService.ParsedResult := ⟨none, none, some ["Bogus"], none⟩

/-- A request carrying a one-term allowed set for every taxonomy field. -/
def smallReq : OpenAIService.OpenAIAnalysisRequest :=
  ⟨"page text", some ⟨["Access"], ⟨["Scientific Platform"], ["Head-to-Head Trials"],
    ["Oncology"], ["Internal Medical Affairs"], ["Efficacy Data"], ["Congress Presentations"],
    ["Medical Affairs Approved"]⟩⟩⟩

/-- An assistant message that is not JSON but contains salvageable
`Title:` and `Summary:` lines. -/
def unparsableMsg : String := "Title: Dosing Overview\nSummary: Overview of dosing"

/-- An assistant message that is not JSON and contains none of the
salvageable field markers. -/
def bareMsg : String := "completely unrelated text"

end Fixtures

namespace CsvExport

/-- `SlideData` from `ResultsList.tsx`, the record shape consumed by
`exportToCSV`. -/
structure SlideData where
  fileIndex : Nat
  fileName : String
  pageNumber : Nat
  title : String
  summary : String
  content_taxonomy : List String
  msl_communication : String
  payer_communication : String
deriving DecidableEq

/-- The CSV header cells of `exportToCSV` (lines 5-13 of `csvExport.ts`). -/
def csvHeaders : List String :=
  ["File Name", "Page Number", "Title", "Summary", "Content Taxonomy", "MSL Communication",
   "Payer Communication"]

/-- The cell values of one exported row (lines 16-24): file name, page
number rendered as a string, title, summary, the taxonomy array joined by
`"; "`, and the two communication fields. -/
def recordCells (r : SlideData) : List String :=
  [r.fileName, toString r.pageNumber, r.title, r.summary,
   String.intercalate "; " r.content_taxonomy, r.msl_communication, r.payer_communication]

/-- The cell escaping of line 29: double every embedded double quote
(JavaScript `String(cell).replace(/"/g, x22 x22)`). -/
def escapeCell : List Char → List Char
  | [] => []
  | '"' :: rest => '"' :: '"' :: escapeCell rest
  | c :: rest => c :: escapeCell rest

/-- A fully quoted cell as emitted on line 29: the escaped content wrapped
in double quotes. -/
def quoteCell (cs : List Char) : List Char := '"' :: (escapeCell cs ++ ['"'])

/-- JavaScript `Array.prototype.join` over character lists. -/
def joinSep (sep : List Char) : List (List Char) → List Char
  | [] => []
  | [x] => x
  | x :: y :: rest => x ++ sep ++ joinSep sep (y :: rest)

/-- One emitted data row over character lists: each cell quoted and escaped,
cells joined by commas. -/
def rowCharsL (cells : List (List Char)) : List Char :=
  joinSep [','] (cells.map quoteCell)

/-- One emitted data row: each cell quoted and escaped, cells joined by
commas. -/
def rowChars (cells : List String) : List Char :=
  rowCharsL (cells.map String.toList)

/-- The emitted header row: header cells joined by commas, unquoted
(line 28: `headers.join(',')`). -/
def headerLine : List Char := joinSep [','] (csvHeaders.map String.toList)

/-- `csvContent` from `exportToCSV` (lines 27-30): the header row followed by
one row per record, joined by newlines.  The blob/download plumbing below it
is browser UI and out of scope. -/
def csvContent (results : List SlideData) : List Char :=
  joinSep ['\n'] (headerLine :: results.map fun r => rowChars (recordCells r))

/-- An RFC 4180 reader as a character automaton: `inQ` says whether the scan
is inside a quoted section; `curF` is the field being accumulated, `curR`
the fields of the current row, `rows` the completed rows.  Inside quotes a
doubled quote is a literal quote and any other character (including commas
and newlines) is literal; outside quotes a comma ends the field and a
newline ends the row. -/
def csvScan : List Char → Bool → List Char → List (List Char) →
    List (List (List Char)) → List (List (List Char))
  | [], _, curF, curR, rows => rows ++ [curR ++ [curF]]
  | '"' :: '"' :: rest, true, curF, curR, rows => csvScan rest true (curF ++ ['"']) curR rows
  | '"' :: rest, true, curF, curR, rows => csvScan rest false curF curR rows
  | c :: rest, true, curF, curR, rows => csvScan rest true (curF ++ [c]) curR rows
  | '"' :: rest, false, curF, curR, rows => csvScan rest true curF curR rows
  | ',' :: rest, false, curF, curR, rows => csvScan rest false [] (curR ++ [curF]) rows
  | '\n' :: rest, false, curF, curR, rows => csvScan rest false [] [] (rows ++ [curR ++ [curF]])
  | c :: rest, false, curF, curR, rows => csvScan rest false (curF ++ [c]) curR rows

/-- Parse a complete CSV text into its rows of fields. -/
def csvParse (cs : List Char) : List (List (List Char)) := csvScan cs false [] [] []

end CsvExport

/-!
Theorems.  Each claim of the specification is settled by one named theorem
below; helper lemmas precede them.
-/

open OpenAIService FileProcessing CsvExport Fixtures

section OpenAIServiceTheorems

lemma ensureValidTaxonomyTerms_ne_nil (terms : Option (List String)) (avail : List String) :
    ensureValidTaxonomyTerms terms avail ≠ [] := by
  cases terms with
  | none => simp [ensureValidTaxonomyTerms]
  | some ts =>
    simp only [ensureValidTaxonomyTerms]
    split
    · simp
    · rename_i h
      exact (not_or.mp h).1

/-- C4: a credential not starting with `sk-` makes both `analyzeWithOpenAI`
and `getAvailableModels` fail with the invalid-credential error, and neither
issues a network request (request count zero). -/
theorem invalid_key_no_network (apiKey : String) (req : OpenAIAnalysisRequest)
    (outcome : LlmOutcome) (cat : Except String (List CatalogModel))
    (cmp : String → String → Ordering)
    (h : jsStartsWith apiKey "sk-" = false) :
    analyzeWithOpenAI apiKey req outcome =
      (.error "Invalid API key format. OpenAI API keys should start with \"sk-\"", 0)
    ∧ getAvailableModels cmp apiKey cat =
      (.error "Invalid API key format. OpenAI API keys should start with \"sk-\"", 0) := by
  constructor <;> simp [analyzeWithOpenAI, getAvailableModels, h]

/-- Witness for C4 at the concrete credential `"abc"`. -/
theorem invalid_key_no_network_witness :
    jsStartsWith "abc" "sk-" = false
    ∧ (analyzeWithOpenAI "abc" smallReq (.unparsable "x") =
        (.error "Invalid API key format. OpenAI API keys should start with \"sk-\"", 0)
      ∧ getAvailableModels codePointCmp "abc" (.ok []) =
        (.error "Invalid API key format. OpenAI API keys should start with \"sk-\"", 0)) :=
  ⟨by decide,
   invalid_key_no_network "abc" smallReq (.unparsable "x") (.ok []) codePointCmp (by decide)⟩

lemma addUnique_extends : ∀ (ms acc : List OpenAIModel), acc <+: addUnique acc ms := by
  intro ms
  induction ms with
  | nil => intro acc; exact List.prefix_refl _
  | cons m rest ih =>
    intro acc
    unfold addUnique
    split
    · exact ih acc
    · exact List.IsPrefix.trans (List.prefix_append acc [m]) (ih (acc ++ [m]))

lemma addUnique_split : ∀ (ms acc : List OpenAIModel),
    ∃ extra, addUnique acc ms = acc ++ extra ∧ extra.Sublist ms := by
  intro ms
  induction ms with
  | nil => intro acc; exact ⟨[], by simp [addUnique], List.nil_sublist _⟩
  | cons m rest ih =>
    intro acc
    unfold addUnique
    split
    · obtain ⟨extra, he, hs⟩ := ih acc
      exact ⟨extra, he, hs.trans (List.sublist_cons_self m rest)⟩
    · obtain ⟨extra, he, hs⟩ := ih (acc ++ [m])
      exact ⟨m :: extra, by simpa using he, hs.cons₂ m⟩

lemma addUnique_nodup : ∀ (ms acc : List OpenAIModel),
    (acc.map (·.id)).Nodup → ((addUnique acc ms).map (·.id)).Nodup := by
  intro ms
  induction ms with
  | nil => intro acc h; simpa [addUnique] using h
  | cons m rest ih =>
    intro acc h
    unfold addUnique
    split
    · exact ih acc h
    · rename_i hnot
      refine ih (acc ++ [m]) ?_
      rw [List.map_append, List.map_singleton]
      refine List.Nodup.append h (List.nodup_singleton _) ?_
      intro x hx hy
      simp only [List.mem_singleton] at hy
      subst hy
      simp only [List.mem_map] at hx
      obtain ⟨y, hy, hid⟩ := hx
      exact hnot (List.any_eq_true.mpr ⟨y, hy, by simp [hid]⟩)

lemma addUnique_mem_of_acc (ms acc : List OpenAIModel) (m : OpenAIModel) (hm : m ∈ acc) :
    m.id ∈ (addUnique acc ms).map (·.id) := by
  obtain ⟨t, ht⟩ := addUnique_extends ms acc
  rw [← ht]
  exact List.mem_map.mpr ⟨m, List.mem_append_left _ hm, rfl⟩

lemma addUnique_complete : ∀ (ms acc : List OpenAIModel), ∀ m ∈ ms,
    m.id ∈ (addUnique acc ms).map (·.id) := by
  intro ms
  induction ms with
  | nil => intro acc m hm; cases hm
  | cons x rest ih =>
    intro acc m hm
    unfold addUnique
    rcases List.mem_cons.mp hm with rfl | hm
    · split
      · rename_i hin
        obtain ⟨y, hy, hid⟩ := List.any_eq_true.mp hin
        have hyid : y.id = m.id := of_decide_eq_true hid
        have hmem := addUnique_mem_of_acc rest acc y hy
        rwa [hyid] at hmem
      · exact addUnique_mem_of_acc rest (acc ++ [m]) m (by simp)
    · split
      · exact ih acc m hm
      · exact ih (acc ++ [x]) m hm

lemma getAvailableModels_empty_catalog (key : String) (hk : jsStartsWith key "sk-" = true) :
    getAvailableModels codePointCmp key (.ok []) = (.ok specificModels, 1) := by
  simp [getAvailableModels, hk, modelsFromCatalog, gptModelsOf, addUnique]

/-- C10: every successful model-listing result has the four hardcoded models
`gpt-4o`, `gpt-4-turbo`, `gpt-4`, `gpt-3.5-turbo` as its first four entries,
in that fixed order, before anything taken from the fetched catalog. -/
theorem preferred_models_first (cmp : String → String → Ordering) (apiKey : String)
    (cat : Except String (List CatalogModel)) (res : List OpenAIModel) (n : Nat)
    (h : getAvailableModels cmp apiKey cat = (.ok res, n)) :
    res.take 4 = specificModels ∧ specificModels <+: res := by
  unfold getAvailableModels at h
  split at h
  · simp at h
  · cases cat with
    | error m => simp at h
    | ok data =>
      have hres : res = modelsFromCatalog cmp data := by
        have := congrArg Prod.fst h
        simpa using this.symm
      subst hres
      have hpre : specificModels <+: modelsFromCatalog cmp data := addUnique_extends _ _
      refine ⟨?_, hpre⟩
      obtain ⟨t, ht⟩ := hpre
      rw [← ht]
      exact List.take_left specificModels t

/-- Witness for C10 with a valid key and an empty catalog. -/
theorem preferred_models_first_witness :
    getAvailableModels codePointCmp "sk-test" (.ok []) = (.ok specificModels, 1)
    ∧ (specificModels.take 4 = specificModels ∧ specificModels <+: specificModels) :=
  ⟨getAvailableModels_empty_catalog "sk-test" (by decide),
   preferred_models_first codePointCmp "sk-test" (.ok []) specificModels 1
     (getAvailableModels_empty_catalog "sk-test" (by decide))⟩

/-- C6 counterexample: with a valid key and an empty catalog the call
succeeds and returns exactly the four hardcoded models, whose order
(`gpt-4o` before `gpt-4-turbo` before `gpt-4` before `gpt-3.5-turbo`) is not
sorted by id, refuting "the final list is sorted by id". -/
theorem models_sorted_counterexample :
    (getAvailableModels codePointCmp "sk-ok" (.ok [])).1 = .ok specificModels
    ∧ specificModels.map (·.id) = ["gpt-4o", "gpt-4-turbo", "gpt-4", "gpt-3.5-turbo"]
    ∧ ¬ List.Sorted (fun a b : OpenAIModel => codePointCmp a.id b.id ≠ .gt) specificModels := by
  refine ⟨?_, by decide, ?_⟩
  · rw [getAvailableModels_empty_catalog "sk-ok" (by decide)]
  · decide

/-- C6 (amended): a successful model-listing call returns the hardcoded
models first (unsorted among themselves), followed by the catalog-derived
models — filtered to gpt, non-instruct, non-vision ids — in comparator-sorted
order, de-duplicated by id: no two entries share an id, the tail past the
four hardcoded entries is a sublist of the sorted filtered catalog, and
every filtered catalog model's id occurs in the result. -/
theorem models_merge_structure (cmp : String → String → Ordering)
    (data : List CatalogModel) (apiKey : String)
    (h : jsStartsWith apiKey "sk-" = true) :
    (getAvailableModels cmp apiKey (.ok data)).1 = .ok (modelsFromCatalog cmp data)
    ∧ ((modelsFromCatalog cmp data).map (·.id)).Nodup
    ∧ (modelsFromCatalog cmp data).take 4 = specificModels
    ∧ ((modelsFromCatalog cmp data).drop 4).Sublist (gptModelsOf cmp data)
    ∧ ∀ m ∈ gptModelsOf cmp data, m.id ∈ (modelsFromCatalog cmp data).map (·.id) := by
  refine ⟨by simp [getAvailableModels, h], addUnique_nodup _ _ (by decide), ?_, ?_, ?_⟩
  · obtain ⟨t, ht⟩ := addUnique_extends (gptModelsOf cmp data) specificModels
    rw [modelsFromCatalog, ← ht]
    exact List.take_left specificModels t
  · obtain ⟨extra, he, hs⟩ := addUnique_split (gptModelsOf cmp data) specificModels
    rw [modelsFromCatalog, he]
    simpa [List.drop_left] using hs
  · exact addUnique_complete _ _

/-- Witness for C6 with a valid key and an empty catalog. -/
theorem models_merge_structure_witness :
    jsStartsWith "sk-test2" "sk-" = true
    ∧ ((getAvailableModels codePointCmp "sk-test2" (.ok [])).1 =
        .ok (modelsFromCatalog codePointCmp [])
      ∧ ((modelsFromCatalog codePointCmp []).map (·.id)).Nodup
      ∧ (modelsFromCatalog codePointCmp []).take 4 = specificModels
      ∧ ((modelsFromCatalog codePointCmp []).drop 4).Sublist (gptModelsOf codePointCmp [])
      ∧ ∀ m ∈ gptModelsOf codePointCmp [],
          m.id ∈ (modelsFromCatalog codePointCmp []).map (·.id)) :=
  ⟨by decide, models_merge_structure codePointCmp [] "sk-test2" (by decide)⟩

/-- C1 counterexample: with allowed content-taxonomy set `["Access"]`, a
parsed response whose content-taxonomy array is `["Bogus"]` is passed
through unchanged, so a term that (even after the claimed NBSP/whitespace
normalization) matches no allowed entry survives validation, refuting the
claim that every term of a validated record is drawn from the allowed set. -/
theorem taxonomy_filtering_counterexample :
    (validatedResponse bogusParsed smallReq).content_taxonomy = ["Bogus"]
    ∧ ¬ (∀ t ∈ (validatedResponse bogusParsed smallReq).content_taxonomy,
          specNormalizeTerm t ∈ ["Access"]) := by
  refine ⟨by decide, ?_⟩
  decide

/-- C1 (amended): every taxonomy field of a validated record is a non-empty
array; a field that is missing, parses to an empty array, or contains the
term `Unable to determine` is replaced by the one-element array holding the
first allowed term; every other field is passed through unchanged — no
normalization and no allow-list filtering is applied to its terms. -/
theorem taxonomy_repair_amended (terms : Option (List String)) (avail : List String)
    (p : ParsedResult) (req : OpenAIAnalysisRequest) :
    ensureValidTaxonomyTerms terms avail ≠ []
    ∧ (∀ ts, ts ≠ [] → "Unable to determine" ∉ ts →
        ensureValidTaxonomyTerms (some ts) avail = ts)
    ∧ (∀ ts : List String, ts = [] ∨ "Unable to determine" ∈ ts →
        ensureValidTaxonomyTerms (some ts) avail = [avail.headD jsUndefined])
    ∧ ensureValidTaxonomyTerms none avail = [avail.headD jsUndefined]
    ∧ (validatedResponse p req).content_taxonomy ≠ []
    ∧ (validatedResponse p req).medical_affairs_taxonomy.ContentType ≠ []
    ∧ (validatedResponse p req).medical_affairs_taxonomy.ClinicalTrialRelevance ≠ []
    ∧ (validatedResponse p req).medical_affairs_taxonomy.DiseaseAndTherapeuticArea ≠ []
    ∧ (validatedResponse p req).medical_affairs_taxonomy.IntendedAudience ≠ []
    ∧ (validatedResponse p req).medical_affairs_taxonomy.KeyScientificMessaging ≠ []
    ∧ (validatedResponse p req).medical_affairs_taxonomy.DistributionAndAccessControl ≠ []
    ∧ (validatedResponse p req).medical_affairs_taxonomy.ComplianceAndRegulatoryConsiderations
        ≠ [] := by
  refine ⟨ensureValidTaxonomyTerms_ne_nil _ _, ?_, ?_, rfl,
    ensureValidTaxonomyTerms_ne_nil _ _, ensureValidTaxonomyTerms_ne_nil _ _,
    ensureValidTaxonomyTerms_ne_nil _ _, ensureValidTaxonomyTerms_ne_nil _ _,
    ensureValidTaxonomyTerms_ne_nil _ _, ensureValidTaxonomyTerms_ne_nil _ _,
    ensureValidTaxonomyTerms_ne_nil _ _, ensureValidTaxonomyTerms_ne_nil _ _⟩
  · intro ts h1 h2
    simp only [ensureValidTaxonomyTerms]
    rw [if_neg]
    intro hor
    rcases hor with he | hc
    · exact h1 he
    · exact h2 (by simpa using hc)
  · intro ts h
    simp only [ensureValidTaxonomyTerms]
    rw [if_pos]
    rcases h with rfl | hmem
    · exact Or.inl rfl
    · exact Or.inr (by simpa using hmem)

/-- Witness for C1 (amended): a non-allowed term passes through unchanged
and an empty array is replaced by the first allowed term. -/
theorem taxonomy_repair_amended_witness :
    (["Bogus"] : List String) ≠ []
    ∧ "Unable to determine" ∉ (["Bogus"] : List String)
    ∧ ensureValidTaxonomyTerms (some ["Bogus"]) ["Access"] = ["Bogus"]
    ∧ ensureValidTaxonomyTerms (some []) ["Access"] = ["Access"] := by
  refine ⟨by decide, by decide,
    (taxonomy_repair_amended (some ["Bogus"]) ["Access"] bogusParsed smallReq).2.1
      ["Bogus"] (by decide) (by decide), ?_⟩
  exact ((taxonomy_repair_amended (some []) ["Access"] bogusParsed smallReq).2.2.1
    [] (Or.inl rfl)).trans (by decide)

/-- C5: when the assistant text fails to parse as JSON, `analyzeWithOpenAI`
does not raise but returns the regex-salvaged fallback record; every
taxonomy field of that record is a one-element array; fields not found in
the text default to sentinel strings; and the text `Title: Dosing Overview`
yields the title `Dosing Overview`. -/
theorem fallback_salvage :
    (∀ key req raw, jsStartsWith key "sk-" = true →
        analyzeWithOpenAI key req (.unparsable raw) = (.ok (fallbackResponse raw), 1))
    ∧ (∀ raw, (fallbackResponse raw).medical_affairs_taxonomy =
        ⟨["Unable to determine"], ["Unable to determine"], ["Unable to determine"],
         ["Unable to determine"], ["Unable to determine"], ["Unable to determine"],
         ["Unable to determine"]⟩
      ∧ (fallbackResponse raw).content_taxonomy.length = 1)
    ∧ (fallbackResponse unparsableMsg).title = "Dosing Overview"
    ∧ (fallbackResponse unparsableMsg).summary = "Overview of dosing"
    ∧ (fallbackResponse bareMsg).title = "Unable to extract title"
    ∧ (fallbackResponse bareMsg).summary = "Unable to extract summary"
    ∧ (fallbackResponse bareMsg).content_taxonomy = ["Unable to determine taxonomy"] := by
  refine ⟨?_, fun raw => ⟨rfl, rfl⟩, by decide, by decide, by decide, by decide, by decide⟩
  intro key req raw h
  simp [analyzeWithOpenAI, h]

/-- Witness for C5 at a concrete valid key. -/
theorem fallback_salvage_witness :
    jsStartsWith "sk-demo" "sk-" = true
    ∧ analyzeWithOpenAI "sk-demo" smallReq (.unparsable "oops") =
        (.ok (fallbackResponse "oops"), 1) :=
  ⟨by decide, fallback_salvage.1 "sk-demo" smallReq "oops" (by decide)⟩

end OpenAIServiceTheorems

section FileProcessingTheorems

lemma suffix_pptx_not_pdf (l : List Char) (h : List.isSuffixOf ".pptx".toList l = true) :
    List.isSuffixOf ".pdf".toList l = false := by
  simp only [List.isSuffixOf] at *
  revert h
  cases hr : l.reverse with
  | nil => simp [List.isPrefixOf]
  | cons c cs =>
    simp only [String.toList] at *
    simp [List.isPrefixOf]
    intro h1 h2
    subst h1
    simp

/-- C9: for a `.pptx` file the page count is `max(1, round(sizeMB * 10))`
with `sizeMB = size / (1024 * 1024)`, and every page's text is the static
placeholder — identical for any two files with the same name, regardless of
their bytes. -/
theorem pptx_heuristic (f : FileModel) (h : lowerEndsWith f.name ".pptx" = true) :
    getPageCount f = .ok (pptxPageCount f.size)
    ∧ pptxPageCount f.size = max 1 (jsRound ((f.size : ℚ) / (1024 * 1024) * 10)).toNat
    ∧ (∀ p, extractPageContent f p = .ok (placeholderText p f.name))
    ∧ ∀ (g : FileModel) (p : Nat), lowerEndsWith g.name ".pptx" = true → g.name = f.name →
        extractPageContent g p = extractPageContent f p := by
  have hpdf : lowerEndsWith f.name ".pdf" = false := suffix_pptx_not_pdf _ h
  refine ⟨by simp [getPageCount, hpdf, h], rfl,
    fun p => by simp [extractPageContent, hpdf, h], ?_⟩
  intro g p hg hname
  have hgpdf : lowerEndsWith g.name ".pdf" = false := suffix_pptx_not_pdf _ hg
  simp [extractPageContent, hpdf, h, hgpdf, hg, hname]

/-- Witness for C9 at a concrete 1 MiB `.pptx` file. -/
theorem pptx_heuristic_witness :
    lowerEndsWith pptxBroken.name ".pptx" = true
    ∧ (getPageCount pptxBroken = .ok (pptxPageCount pptxBroken.size)
      ∧ pptxPageCount pptxBroken.size =
          max 1 (jsRound ((pptxBroken.size : ℚ) / (1024 * 1024) * 10)).toNat
      ∧ (∀ p, extractPageContent pptxBroken p = .ok (placeholderText p pptxBroken.name))
      ∧ ∀ (g : FileModel) (p : Nat), lowerEndsWith g.name ".pptx" = true →
          g.name = pptxBroken.name → extractPageContent g p = extractPageContent pptxBroken p) :=
  ⟨by decide, pptx_heuristic pptxBroken (by decide)⟩

/-- C3: a page whose extracted text trims to fewer than 20 characters causes
no LLM call and no record, but still advances `processedPageCount` by one
and reports exactly one progress value. -/
theorem short_page_skipped (env : Env) (f : FileModel) (i p total processed : Nat)
    (text : String) (h1 : extractPageContent f p = .ok text)
    (h2 : (jsTrimList text.toList).length < 20) :
    processPage env f i p total processed =
      ⟨[], [progress (processed + 1) total], 0, processed + 1⟩ := by
  simp only [processPage, h1]
  rw [if_pos h2]

/-- Witness for C3 at a one-page PDF holding two characters of text. -/
theorem short_page_skipped_witness :
    extractPageContent shortPdf 1 = .ok "hi"
    ∧ (jsTrimList "hi".toList).length < 20
    ∧ processPage stubEnv shortPdf 0 1 1 0 = ⟨[], [progress 1 1], 0, 1⟩ :=
  ⟨by decide, by decide,
   short_page_skipped stubEnv shortPdf 0 1 1 0 "hi" (by decide) (by decide)⟩

/-- C2 counterexample: a 1 MiB `.pptx` file whose bytes cannot be read is
counted by the size heuristic but never processed: the batch completes with
`processedPageCount` (0) different from `totalPageCount` (at least 1), and
no progress value — in particular never 100 — is reported. -/
theorem progress_shortfall_counterexample :
    (processFiles stubEnv [pptxBroken]).processed ≠ (processFiles stubEnv [pptxBroken]).total
    ∧ (processFiles stubEnv [pptxBroken]).events = [] := by
  have h0 : (processFiles stubEnv [pptxBroken]).processed = 0 := rfl
  have h1 : (processFiles stubEnv [pptxBroken]).total = pptxPageCount 1048576 := rfl
  have h2 : 1 ≤ pptxPageCount 1048576 := le_max_left 1 _
  exact ⟨by rw [h0, h1]; omega, rfl⟩

lemma processPage_shape (env : Env) (f : FileModel) (i p total processed : Nat) :
    (processPage env f i p total processed).events = [progress (processed + 1) total]
    ∧ (processPage env f i p total processed).processed = processed + 1 := by
  unfold processPage
  rcases hE : extractPageContent f p with e | text
  · exact ⟨rfl, rfl⟩
  · simp only
    split
    · exact ⟨rfl, rfl⟩
    · rcases hL : env.llm text with e | a <;> simp [hL]

lemma processPages_spec (env : Env) (f : FileModel) (i total : Nat) :
    ∀ (ps : List Nat) (processed : Nat),
    (processPages env f i total ps processed).processed = processed + ps.length
    ∧ (processPages env f i total ps processed).events =
      (List.range' (processed + 1) ps.length).map (fun k => progress k total) := by
  intro ps
  induction ps with
  | nil => intro processed; exact ⟨rfl, rfl⟩
  | cons p ps ih =>
    intro processed
    obtain ⟨he, hp⟩ := processPage_shape env f i p total processed
    obtain ⟨ih1, ih2⟩ := ih (processed + 1)
    constructor
    · simp only [processPages, hp, ih1, List.length_cons]
      omega
    · simp only [processPages, hp, he, ih2, List.length_cons, List.range'_succ, List.map_cons]
      rfl

lemma processFile_spec (env : Env) (f : FileModel) (i total processed : Nat)
    (hf : goodFile f) :
    (processFile env f i total processed).processed = processed + countOf f
    ∧ (processFile env f i total processed).events =
      (List.range' (processed + 1) (countOf f)).map (fun k => progress k total) := by
  unfold processFile
  rcases hR : f.readRes with e | u
  · have hcount : countOf f = 0 := by
      unfold countOf
      rcases hC : getPageCount f with e2 | n
      · rfl
      · have hok := hf n hC
        rw [hok] at hR
        cases hR
    simp [hcount]
  · rcases hC : getPageCount f with e2 | n
    · have hcount : countOf f = 0 := by unfold countOf; rw [hC]
      simp [hC, hcount]
    · have hcount : countOf f = n := by unfold countOf; rw [hC]
      obtain ⟨h1, h2⟩ := processPages_spec env f i total (List.range' 1 n) processed
      simp only [hC, hcount]
      exact ⟨by rw [h1, List.length_range'], by rw [h2, List.length_range']⟩

lemma processFilesFrom_spec (env : Env) (total : Nat) :
    ∀ (files : List FileModel) (i processed : Nat), (∀ f ∈ files, goodFile f) →
    (processFilesFrom env total files i processed).processed = processed + countTotal files
    ∧ (processFilesFrom env total files i processed).events =
      (List.range' (processed + 1) (countTotal files)).map (fun k => progress k total) := by
  intro files
  induction files with
  | nil => intro i processed _; simp [processFilesFrom, countTotal]
  | cons f fs ih =>
    intro i processed h
    obtain ⟨h1, h2⟩ := processFile_spec env f i total processed (h f (by simp))
    obtain ⟨ih1, ih2⟩ := ih (i + 1) (processed + countOf f) (fun g hg => h g (by simp [hg]))
    have hct : countTotal (f :: fs) = countOf f + countTotal fs := by
      simp [countTotal]
    constructor
    · simp only [processFilesFrom, h1, ih1, hct]
      omega
    · simp only [processFilesFrom, h1, h2, ih2, hct]
      rw [← List.map_append]
      congr 1
      have hs : processed + countOf f + 1 = (processed + 1) + 1 * countOf f := by omega
      rw [hs, List.range'_append]
      congr 1
      omega

lemma progress_self (t : Nat) (ht : 0 < t) : progress t t = 100 := by
  unfold progress
  rw [div_self (by exact_mod_cast ht.ne'), one_mul]

lemma progress_mono (t : Nat) {a b : Nat} (hab : a ≤ b) : progress a t ≤ progress b t := by
  unfold progress
  rcases Nat.eq_zero_or_pos t with rfl | ht
  · simp
  · have hb : (a : ℚ) ≤ b := by exact_mod_cast hab
    have htq : (0 : ℚ) < t := by exact_mod_cast ht
    gcongr

/-- C2 (amended): `processedPageCount` advances by exactly one per page
attempt (skip, success, or error).  Provided no file suffers a file-level
failure after a successful page count (`goodFile`), the batch ends with
`processedPageCount = totalPageCount`, the reported progress values are
`k / total * 100` for `k = 1 .. total`, monotonically non-decreasing, and
the last reported value is 100 whenever any page was counted.  (A `.pptx`
file whose bytes cannot be read violates `goodFile` and leaves the count
short — see the counterexample.) -/
theorem progress_invariants (env : Env) (files : List FileModel)
    (h : ∀ f ∈ files, goodFile f) :
    (processFiles env files).processed = (processFiles env files).total
    ∧ (processFiles env files).events =
      (List.range' 1 (processFiles env files).total).map
        (fun k => progress k (processFiles env files).total)
    ∧ List.Sorted (· ≤ ·) (processFiles env files).events
    ∧ (0 < (processFiles env files).total →
        (processFiles env files).events.getLast? = some 100)
    ∧ ∀ (g : FileModel) (i p total processed : Nat),
        (processPage env g i p total processed).processed = processed + 1 := by
  obtain ⟨h1, h2⟩ := processFilesFrom_spec env (countTotal files) files 0 0 h
  have htot : (processFiles env files).total = countTotal files := rfl
  have hpr : (processFiles env files).processed =
      (processFilesFrom env (countTotal files) files 0 0).processed := rfl
  have hev : (processFiles env files).events =
      (processFilesFrom env (countTotal files) files 0 0).events := rfl
  have hev' : (processFiles env files).events =
      (List.range' 1 (countTotal files)).map (fun k => progress k (countTotal files)) := by
    rw [hev, h2]
  refine ⟨by rw [hpr, h1, htot]; omega, by rw [hev', htot], ?_, ?_, ?_⟩
  · rw [hev']
    apply List.Pairwise.map
    · intro a b hab
      exact progress_mono _ (le_of_lt hab)
    · exact List.pairwise_lt_range' 1 _
  · intro ht
    rw [htot] at ht
    rw [hev']
    obtain ⟨m, hm⟩ : ∃ m, countTotal files = m + 1 :=
      ⟨countTotal files - 1, (Nat.succ_pred_eq_of_pos ht).symm⟩
    have h100 : progress (1 + m) (m + 1) = 100 := by
      rw [Nat.add_comm 1 m]
      exact progress_self (m + 1) (Nat.succ_pos m)
    rw [hm, List.range'_1_concat, List.map_append, List.getLast?_append]
    simp [h100]
  · intro g i p total processed
    exact (processPage_shape env g i p total processed).2

/-- Witness for C2 at a concrete two-file batch (a short-text PDF and a
long-text PDF) under a failing LLM environment. -/
theorem progress_invariants_witness :
    (∀ f ∈ [shortPdf, longPdf], goodFile f)
    ∧ ((processFiles stubEnv [shortPdf, longPdf]).processed =
        (processFiles stubEnv [shortPdf, longPdf]).total
      ∧ (processFiles stubEnv [shortPdf, longPdf]).events =
        (List.range' 1 (processFiles stubEnv [shortPdf, longPdf]).total).map
          (fun k => progress k (processFiles stubEnv [shortPdf, longPdf]).total)
      ∧ List.Sorted (· ≤ ·) (processFiles stubEnv [shortPdf, longPdf]).events
      ∧ (0 < (processFiles stubEnv [shortPdf, longPdf]).total →
          (processFiles stubEnv [shortPdf, longPdf]).events.getLast? = some 100)
      ∧ ∀ (g : FileModel) (i p total processed : Nat),
          (processPage stubEnv g i p total processed).processed = processed + 1) := by
  have hg : ∀ f ∈ [shortPdf, longPdf], goodFile f := by
    intro f hf
    rcases List.mem_cons.mp hf with rfl | hf
    · intro n _; rfl
    · rcases List.mem_cons.mp hf with rfl | hf
      · intro n _; rfl
      · cases hf
  exact ⟨hg, progress_invariants stubEnv [shortPdf, longPdf] hg⟩

lemma countTotal_append (xs ys : List FileModel) :
    countTotal (xs ++ ys) = countTotal xs + countTotal ys := by
  simp [countTotal]

lemma processFilesFrom_append (env : Env) (total : Nat) :
    ∀ (xs ys : List FileModel) (i processed : Nat),
    (processFilesFrom env total (xs ++ ys) i processed).records =
      (processFilesFrom env total xs i processed).records
      ++ (processFilesFrom env total ys (i + xs.length)
          (processFilesFrom env total xs i processed).processed).records := by
  intro xs
  induction xs with
  | nil =>
    intro ys i processed
    simp [processFilesFrom]
  | cons x xs ih =>
    intro ys i processed
    simp only [List.cons_append, processFilesFrom, List.append_eq]
    rw [ih]
    have hidx : i + 1 + xs.length = i + (xs.length + 1) := by omega
    simp [hidx, List.append_assoc]

lemma processFile_unsupported (env : Env) (f : FileModel) (i total processed : Nat)
    (h1 : lowerEndsWith f.name ".pdf" = false) (h2 : lowerEndsWith f.name ".pptx" = false)
    (h3 : f.readRes = .ok ()) :
    processFile env f i total processed =
      ⟨[fileErrorRecord i f.name "Unsupported file type"], [], 0, processed⟩ := by
  simp [processFile, getPageCount, h1, h2, h3]

/-- C8: a file whose extension is neither `.pdf` nor `.pptx`
(case-insensitively) fails page counting and text extraction with the
`Unsupported file type` error; in a batch it contributes nothing to the page
total, yields exactly one file-level error record (error sentinel title and
summary), and the files before and after it are processed as usual. -/
theorem unsupported_file_nonfatal (bad : FileModel)
    (h1 : lowerEndsWith bad.name ".pdf" = false)
    (h2 : lowerEndsWith bad.name ".pptx" = false)
    (h3 : bad.readRes = .ok ()) :
    getPageCount bad = .error "Unsupported file type"
    ∧ (∀ p, extractPageContent bad p = .error "Unsupported file type")
    ∧ countOf bad = 0
    ∧ ∀ (env : Env) (fs gs : List FileModel),
        (processFiles env (fs ++ bad :: gs)).total = countTotal fs + countTotal gs
        ∧ (processFiles env (fs ++ bad :: gs)).results =
            (processFilesFrom env (countTotal (fs ++ bad :: gs)) fs 0 0).records
            ++ fileErrorRecord fs.length bad.name "Unsupported file type"
              :: (processFilesFrom env (countTotal (fs ++ bad :: gs)) gs (fs.length + 1)
                  (processFilesFrom env (countTotal (fs ++ bad :: gs)) fs 0 0).processed).records := by
  have hgc : getPageCount bad = .error "Unsupported file type" := by
    simp [getPageCount, h1, h2]
  have hco : countOf bad = 0 := by simp [countOf, hgc]
  refine ⟨hgc, fun p => by simp [extractPageContent, h1, h2], hco, ?_⟩
  intro env fs gs
  constructor
  · show countTotal (fs ++ bad :: gs) = countTotal fs + countTotal gs
    rw [countTotal_append]
    simp [countTotal, hco]
  · show (processFilesFrom env (countTotal (fs ++ bad :: gs)) (fs ++ bad :: gs) 0 0).records = _
    rw [processFilesFrom_append]
    congr 1
    simp only [Nat.zero_add, processFilesFrom]
    rw [processFile_unsupported env bad fs.length (countTotal (fs ++ bad :: gs))
      (processFilesFrom env (countTotal (fs ++ bad :: gs)) fs 0 0).processed h1 h2 h3]
    simp

/-- Witness for C8 at a `.txt` file followed by a processable PDF. -/
theorem unsupported_file_nonfatal_witness :
    lowerEndsWith txtFile.name ".pdf" = false
    ∧ lowerEndsWith txtFile.name ".pptx" = false
    ∧ txtFile.readRes = .ok ()
    ∧ (getPageCount txtFile = .error "Unsupported file type"
      ∧ (∀ p, extractPageContent txtFile p = .error "Unsupported file type")
      ∧ countOf txtFile = 0
      ∧ ∀ (env : Env) (fs gs : List FileModel),
          (processFiles env (fs ++ txtFile :: gs)).total = countTotal fs + countTotal gs
          ∧ (processFiles env (fs ++ txtFile :: gs)).results =
              (processFilesFrom env (countTotal (fs ++ txtFile :: gs)) fs 0 0).records
              ++ fileErrorRecord fs.length txtFile.name "Unsupported file type"
                :: (processFilesFrom env (countTotal (fs ++ txtFile :: gs)) gs (fs.length + 1)
                    (processFilesFrom env (countTotal (fs ++ txtFile :: gs)) fs 0 0).processed).records) :=
  ⟨by decide, by decide, rfl,
   unsupported_file_nonfatal txtFile (by decide) (by decide) rfl⟩

end FileProcessingTheorems

section CsvTheorems

lemma csvScan_other_true (c : Char) (h : c ≠ '"') (rest curF curR rows) :
    csvScan (c :: rest) true curF curR rows = csvScan rest true (curF ++ [c]) curR rows := by
  simp [csvScan, h]

lemma csvScan_openquote (X : List Char) (curF curR rows) :
    csvScan ('"' :: X) false curF curR rows = csvScan X true curF curR rows := by
  cases X with
  | nil => rfl
  | cons y ys =>
    by_cases hy : y = '"' <;> simp [csvScan, hy]

lemma csvScan_comma (X : List Char) (curF curR rows) :
    csvScan (',' :: X) false curF curR rows = csvScan X false [] (curR ++ [curF]) rows := rfl

lemma csvScan_newline (X : List Char) (curF curR rows) :
    csvScan ('\n' :: X) false curF curR rows
      = csvScan X false [] [] (rows ++ [curR ++ [curF]]) := rfl

lemma csvScan_endquote_cons (r : Char) (h : r ≠ '"') (rs curF curR rows) :
    csvScan ('"' :: r :: rs) true curF curR rows = csvScan (r :: rs) false curF curR rows := by
  simp [csvScan, h]

lemma csvScan_escape (cell : List Char) : ∀ (rest curF : List Char) (curR rows),
    csvScan (escapeCell cell ++ rest) true curF curR rows
      = csvScan rest true (curF ++ cell) curR rows := by
  induction cell with
  | nil => intro rest curF curR rows; simp [escapeCell]
  | cons c cs ih =>
    intro rest curF curR rows
    by_cases h : c = '"'
    · subst h
      calc csvScan (escapeCell ('"' :: cs) ++ rest) true curF curR rows
          = csvScan (escapeCell cs ++ rest) true (curF ++ ['"']) curR rows := rfl
        _ = csvScan rest true ((curF ++ ['"']) ++ cs) curR rows := ih rest _ curR rows
        _ = csvScan rest true (curF ++ '"' :: cs) curR rows := by simp
    · calc csvScan (escapeCell (c :: cs) ++ rest) true curF curR rows
          = csvScan (c :: (escapeCell cs ++ rest)) true curF curR rows := by
            rw [show escapeCell (c :: cs) = c :: escapeCell cs from by simp [escapeCell, h]]
            rfl
        _ = csvScan (escapeCell cs ++ rest) true (curF ++ [c]) curR rows :=
            csvScan_other_true c h _ _ _ _
        _ = csvScan rest true ((curF ++ [c]) ++ cs) curR rows := ih rest _ curR rows
        _ = csvScan rest true (curF ++ c :: cs) curR rows := by simp

lemma csvScan_quoted (cell : List Char) (rest curF : List Char) (curR rows)
    (hrest : rest.head? ≠ some '"') :
    csvScan (quoteCell cell ++ rest) false curF curR rows
      = csvScan rest false (curF ++ cell) curR rows := by
  have h1 : quoteCell cell ++ rest = '"' :: (escapeCell cell ++ ('"' :: rest)) := by
    simp [quoteCell]
  rw [h1, csvScan_openquote, csvScan_escape]
  cases rest with
  | nil => rfl
  | cons r rs =>
    have hr : r ≠ '"' := by
      intro e
      subst e
      simp at hrest
    exact csvScan_endquote_cons r hr rs _ _ _

lemma csvScan_row_end (cells : List (List Char)) (h : cells ≠ []) :
    ∀ curR rows, csvScan (rowCharsL cells) false [] curR rows = rows ++ [curR ++ cells] := by
  induction cells with
  | nil => cases h rfl
  | cons c cs ih =>
    intro curR rows
    cases cs with
    | nil =>
      have hrw : rowCharsL [c] = quoteCell c ++ [] := by simp [rowCharsL, joinSep]
      rw [hrw, csvScan_quoted c [] [] curR rows (by decide)]
      rfl
    | cons d ds =>
      have hrw : rowCharsL (c :: d :: ds)
          = quoteCell c ++ (',' :: rowCharsL (d :: ds)) := by
        simp [rowCharsL, joinSep, List.append_assoc]
      rw [hrw, csvScan_quoted c (',' :: rowCharsL (d :: ds)) [] curR rows (by simp)]
      simp only [List.nil_append]
      rw [csvScan_comma, ih (by simp) (curR ++ [c]) rows]
      simp

lemma csvScan_row_newline (cells : List (List Char)) (h : cells ≠ []) :
    ∀ (X : List Char) (curR rows),
    csvScan (rowCharsL cells ++ '\n' :: X) false [] curR rows
      = csvScan X false [] [] (rows ++ [curR ++ cells]) := by
  induction cells with
  | nil => cases h rfl
  | cons c cs ih =>
    intro X curR rows
    cases cs with
    | nil =>
      have hrw : rowCharsL [c] ++ '\n' :: X = quoteCell c ++ ('\n' :: X) := by
        simp [rowCharsL, joinSep]
      rw [hrw, csvScan_quoted c ('\n' :: X) [] curR rows (by simp), csvScan_newline]
      simp
    | cons d ds =>
      have hrw : rowCharsL (c :: d :: ds) ++ '\n' :: X
          = quoteCell c ++ (',' :: (rowCharsL (d :: ds) ++ '\n' :: X)) := by
        simp [rowCharsL, joinSep, List.append_assoc]
      rw [hrw,
        csvScan_quoted c (',' :: (rowCharsL (d :: ds) ++ '\n' :: X)) [] curR rows (by simp)]
      simp only [List.nil_append]
      rw [csvScan_comma, ih (by simp) X (curR ++ [c]) rows]
      simp

lemma csvScan_rows (rws : List (List (List Char))) (hne : rws ≠ [])
    (hrow : ∀ r ∈ rws, r ≠ []) : ∀ rows,
    csvScan (joinSep ['\n'] (rws.map rowCharsL)) false [] [] rows = rows ++ rws := by
  induction rws with
  | nil => cases hne rfl
  | cons r rs ih =>
    intro rows
    cases rs with
    | nil =>
      show csvScan (rowCharsL r) false [] [] rows = rows ++ [r]
      rw [csvScan_row_end r (hrow r (by simp)) [] rows]
      simp
    | cons r2 rs2 =>
      have hrw : joinSep ['\n'] ((r :: r2 :: rs2).map rowCharsL)
          = rowCharsL r ++ '\n' :: joinSep ['\n'] ((r2 :: rs2).map rowCharsL) := by
        simp [joinSep, List.append_assoc]
      rw [hrw, csvScan_row_newline r (hrow r (by simp)),
        ih (by simp) (fun q hq => hrow q (by simp [hq])) (rows ++ [[] ++ r])]
      simp

lemma csvScan_headerLine_end (rows : List (List (List Char))) :
    csvScan headerLine false [] [] rows = rows ++ [csvHeaders.map String.toList] := rfl

lemma csvScan_headerLine_newline (X : List Char) (rows : List (List (List Char))) :
    csvScan (headerLine ++ '\n' :: X) false [] [] rows
      = csvScan X false [] [] (rows ++ [csvHeaders.map String.toList]) := rfl

/-- C7: parsing the exported CSV text with an RFC 4180 reader recovers the
header row and, for every record, exactly its cell values — file name, page
number, title, summary, the taxonomy array joined by `"; "` and the two
communication fields — for arbitrary cell contents, including embedded
commas, quotes and newlines. -/
theorem csv_roundtrip (results : List SlideData) :
    csvParse (csvContent results) =
      csvHeaders.map String.toList
        :: results.map (fun r => (recordCells r).map String.toList) := by
  cases results with
  | nil =>
    have h1 : csvContent [] = headerLine := by simp [csvContent, joinSep]
    show csvScan (csvContent []) false [] [] [] = _
    rw [h1, csvScan_headerLine_end]
    rfl
  | cons r rs =>
    have hmm : (r :: rs).map (fun q => rowChars (recordCells q))
        = ((r :: rs).map (fun q => (recordCells q).map String.toList)).map rowCharsL := by
      rw [List.map_map]
      rfl
    have h1 : csvContent (r :: rs)
        = headerLine ++ '\n' :: joinSep ['\n']
            (((r :: rs).map (fun q => (recordCells q).map String.toList)).map rowCharsL) := by
      rw [csvContent, hmm]
      simp [joinSep, List.append_assoc]
    show csvScan (csvContent (r :: rs)) false [] [] [] = _
    rw [h1, csvScan_headerLine_newline]
    simp only [List.nil_append]
    rw [csvScan_rows ((r :: rs).map (fun q => (recordCells q).map String.toList)) (by simp)
        (fun q hq => ?_) [csvHeaders.map String.toList]]
    · rfl
    · simp only [List.mem_map] at hq
      obtain ⟨s, _, hs⟩ := hq
      rw [← hs]
      simp [recordCells]

end CsvTheorems
